import Mathlib

/-!
Shallow embedding of the statistical core of `cmplot.py` (Cloudy Mountain Plot),
together with proofs about the claims of its specification.

The embedded functions are, with their source locations in `src/cmplot.py`:

* `t_test_ci`      (lines 209-218): Student-t confidence interval;
* `hdi_from_mcmc`  (lines 220-241): highest density interval from samples;
* `ttest_bayes_ci` (lines 243-260): Monte-Carlo Bayesian interval;
* `computeInterval` (lines 352-359): the per-group interval dispatch inside `cmplot`.

Modelling conventions:

* real numbers are modelled by an arbitrary `LinearOrderedField` with a floor
  (instantiated at `ℚ` for executable concrete computations and at `ℝ` where the
  square root semantics matters);
* `numpy`'s square root is an explicit function parameter `sqrtFn` (instantiated
  with `Real.sqrt` where the claim depends on it);
* the random source behind `scipy.stats.t.rvs` is an explicit injected stream
  `src : ℕ → ℕ → α` (degrees of freedom → draw index → value), so theorems
  quantify over every possible outcome of the draws;
* a Python exception escaping a function is modelled by `Option.none`.
-/

set_option allowUnsafeReducibility true
set_option linter.unusedVariables false
set_option linter.unusedSectionVars false

attribute [local semireducible] Rat.add Rat.sub Rat.mul Rat.inv Rat.ofScientific

namespace Cmplot

variable {α : Type} [LinearOrderedField α] [FloorRing α]

/-- Model of line 233, `sorted_points = sorted(posterior_samples)`: Python's
builtin `sorted` returns a new list in ascending order (stable merge sort). -/
def sorted_points (posterior_samples : List α) : List α :=
  posterior_samples.mergeSort

/-- Model of line 234, `ci_idx_inc = np.ceil(credible_mass * len(sorted_points)).astype(int)`:
the number of index steps spanned by the credible window. -/
def ci_idx_inc (posterior_samples : List α) (credible_mass : α) : ℤ :=
  ⌈credible_mass * (posterior_samples.length : α)⌉

/-- Model of line 235, `n_ci = len(sorted_points) - ci_idx_inc`:
the number of candidate window start positions. -/
def n_ci (posterior_samples : List α) (credible_mass : α) : ℤ :=
  (posterior_samples.length : ℤ) - ci_idx_inc posterior_samples credible_mass

/-- Model of lines 236-238, the list `ci_width` with
`ci_width[i] = sorted_points[i + ci_idx_inc] - sorted_points[i]` for
`i in range(0, n_ci)` (for a negative `n_ci` the range is empty, as in Python). -/
def ci_width (posterior_samples : List α) (credible_mass : α) : List α :=
  (List.range (n_ci posterior_samples credible_mass).toNat).map
    (fun i =>
      (sorted_points posterior_samples).getD
        (i + (ci_idx_inc posterior_samples credible_mass).toNat) 0
      - (sorted_points posterior_samples).getD i 0)

/-- Model of `hdi_from_mcmc` (lines 220-241): returns
`(sorted_points[ci_width.index(min(ci_width))],
  sorted_points[ci_width.index(min(ci_width)) + ci_idx_inc])`.
When `ci_width` is empty, Python's `min` raises a `ValueError`
("min() arg is an empty sequence"), modelled here by `none`. -/
def hdi_from_mcmc (posterior_samples : List α) (credible_mass : α) : Option (α × α) :=
  match (ci_width posterior_samples credible_mass).min? with
  | none => none
  | some m =>
    some ((sorted_points posterior_samples).getD
            ((ci_width posterior_samples credible_mass).indexOf m) 0,
          (sorted_points posterior_samples).getD
            ((ci_width posterior_samples credible_mass).indexOf m
              + (ci_idx_inc posterior_samples credible_mass).toNat) 0)

/-- Model of `np.mean(x)`: the arithmetic mean, sum divided by length. -/
def np_mean (x_val : List α) : α := x_val.sum / (x_val.length : α)

/-- Model of `np.std(x)` with numpy's default `ddof=0` (population convention):
the square root of the mean of the squared deviations from the mean, the square
root being the explicit parameter `sqrtFn`. -/
def np_std (sqrtFn : α → α) (x_val : List α) : α :=
  sqrtFn ((x_val.map (fun v => (v - np_mean x_val) ^ 2)).sum / (x_val.length : α))

/-- Model of `scipy.stats.t.rvs(df, size=size)` with an injected random stream
`src`: the list of draws `src df 0, ..., src df (size - 1)`; by the scipy
contract the result has exactly `size` entries. -/
def t_rvs (src : ℕ → ℕ → α) (df : ℕ) (size : ℕ) : List α :=
  (List.range size).map (src df)

/-- Model of `scipy.stats.t.interval(conf_level, df, loc, scale)`: the
equal-tailed interval `(loc + scale * q((1-conf)/2), loc + scale * q((1+conf)/2))`
where `q` is the Student-t quantile function for `df` degrees of freedom,
kept abstract as the parameter `tppf`. -/
def t_interval (tppf : ℕ → α → α) (conf_level : α) (df : ℕ) (loc scale : α) : α × α :=
  (loc + scale * tppf df ((1 - conf_level) / 2),
   loc + scale * tppf df ((1 + conf_level) / 2))

/-- Model of `t_test_ci` (lines 209-218):
`t.interval(conf_level, len(x)-1, loc=np.mean(x), scale=np.std(x)/np.sqrt(len(x)))`. -/
def t_test_ci (sqrtFn : α → α) (tppf : ℕ → α → α) (x_val : List α) (conf_level : α) : α × α :=
  t_interval tppf conf_level (x_val.length - 1)
    (np_mean x_val) (np_std sqrtFn x_val / sqrtFn (x_val.length : α))

/-- Default value of the `iterations` parameter in the source signature
`def ttest_bayes_ci(x_val, iterations=1000, credible_mass=0.95)` (line 243). -/
def ttest_bayes_ci_iterations_default : ℕ := 1000

/-- Default value of the `hdi_iter` parameter of `cmplot` (line 33),
which `cmplot` passes as `iterations` in its call to `ttest_bayes_ci` (line 355). -/
def cmplot_hdi_iter_default : ℕ := 10000

/-- The posterior sample set built by `ttest_bayes_ci` (line 258):
`t_s = std_err * t.rvs(dof, size=iterations) + xmean`, the draws scaled by the
standard error and shifted by the mean. -/
def bayes_t_s (sqrtFn : α → α) (src : ℕ → ℕ → α) (x_val : List α) (iterations : ℕ) : List α :=
  (t_rvs src (x_val.length - 1) iterations).map
    (fun d => np_std sqrtFn x_val / sqrtFn (x_val.length : α) * d + np_mean x_val)

/-- Model of `ttest_bayes_ci` (lines 243-260): builds the posterior sample set
`t_s` (with `num = len(x_val)`, `dof = num - 1`, `xmean = np.mean(x_val)`,
`std_err = np.std(x_val)/np.sqrt(num)`) and reduces it with `hdi_from_mcmc`. -/
def ttest_bayes_ci (sqrtFn : α → α) (src : ℕ → ℕ → α) (x_val : List α)
    (iterations : ℕ) (credible_mass : α) : Option (α × α) :=
  hdi_from_mcmc (bayes_t_s sqrtFn src x_val iterations) credible_mass

/-- Model of `np.quantile(a, q)` with numpy's default linear interpolation:
with `s` the ascending sort of `a` and `h = q * (len(a) - 1)`, returns
`s[⌊h⌋] + (h - ⌊h⌋) * (s[⌊h⌋ + 1] - s[⌊h⌋])`. -/
def np_quantile (a : List α) (q : α) : α :=
  let s := a.mergeSort
  let h := q * ((a.length : α) - 1)
  s.getD (⌊h⌋).toNat 0 + (h - (⌊h⌋ : α)) * (s.getD ((⌊h⌋).toNat + 1) 0 - s.getD (⌊h⌋).toNat 0)

/-- The four values of the `inf` argument of `cmplot`. -/
inductive InfBand
  | hdi
  | ci
  | iqr
  | band_off

/-- Model of lines 352-359 of `cmplot.py`, the per-group interval computation:

if `len(y_val) < 2` the pair `(None, None)` is returned without calling any
estimator; otherwise the dispatch on `inf` runs. The outer `Option` models a
Python exception escaping (possible only in the `hdi` branch, from
`hdi_from_mcmc`); `some (none, none)` is the intentional undefined interval. -/
def computeInterval (sqrtFn : α → α) (src : ℕ → ℕ → α) (tppf : ℕ → α → α)
    (y_val : List α) (inf : InfBand) (conf_level : α) (hdi_iter : ℕ) :
    Option (Option α × Option α) :=
  if y_val.length < 2 then some (none, none)
  else
    match inf with
    | InfBand.hdi =>
      (ttest_bayes_ci sqrtFn src y_val hdi_iter conf_level).map
        (fun p => (some p.1, some p.2))
    | InfBand.ci =>
      some (some (t_test_ci sqrtFn tppf y_val conf_level).1,
            some (t_test_ci sqrtFn tppf y_val conf_level).2)
    | InfBand.iqr =>
      some (some (np_quantile y_val 0.25), some (np_quantile y_val 0.75))
    | InfBand.band_off => some (none, none)

/-- State-passing form of `hdi_from_mcmc`: together with the result it returns
the contents of the caller's `posterior_samples` sequence after the call. The
source reads the sample only through Python's builtin `sorted` (line 233), which
allocates a new list rather than sorting in place, so no statement of the
function writes to the caller's sequence. -/
def hdi_from_mcmc_frame (posterior_samples : List α) (credible_mass : α) :
    Option (α × α) × List α :=
  (hdi_from_mcmc posterior_samples credible_mass, posterior_samples)

/-- State-passing form of `ttest_bayes_ci`: together with the result it returns
the contents of the caller's `x_val` sequence after the call. The source reads
`x_val` only through `len`, `np.mean` and `np.std` (lines 254-257), none of
which writes to it; `t_s` is a fresh array. -/
def ttest_bayes_ci_frame (sqrtFn : α → α) (src : ℕ → ℕ → α) (x_val : List α)
    (iterations : ℕ) (credible_mass : α) : Option (α × α) × List α :=
  (ttest_bayes_ci sqrtFn src x_val iterations credible_mass, x_val)

/-- State-passing form of `t_test_ci`: together with the result it returns the
contents of the caller's `x_val` sequence after the call. The source reads
`x_val` only through `len`, `np.mean` and `np.std` (lines 216-218). -/
def t_test_ci_frame (sqrtFn : α → α) (tppf : ℕ → α → α) (x_val : List α)
    (conf_level : α) : (α × α) × List α :=
  (t_test_ci sqrtFn tppf x_val conf_level, x_val)

/-- Lower endpoint `sorted_points[i]` of the candidate window starting at `i`. -/
def win_lo (samples : List α) (credible_mass : α) (i : ℕ) : α :=
  (sorted_points samples).getD i 0

/-- Upper endpoint `sorted_points[i + ci_idx_inc]` of the candidate window
starting at `i`. -/
def win_hi (samples : List α) (credible_mass : α) (i : ℕ) : α :=
  (sorted_points samples).getD (i + (ci_idx_inc samples credible_mass).toNat) 0

/-- Width `w[i] = sorted_points[i + ci_idx_inc] - sorted_points[i]` of the
candidate window starting at `i`. -/
def win_width (samples : List α) (credible_mass : α) (i : ℕ) : α :=
  win_hi samples credible_mass i - win_lo samples credible_mass i

/-- Population standard deviation in the words of the specification glossary:
standard deviation computed with divisor n rather than n-1, namely the square
root of the sum of the squared deviations from the mean divided by n. -/
noncomputable def population_std (x_val : List ℝ) : ℝ :=
  Real.sqrt ((x_val.map (fun v => (v - np_mean x_val) ^ 2)).sum / (x_val.length : ℝ))

/-! Helper lemmas about the embedded definitions. -/

theorem sorted_points_sorted (l : List α) : (sorted_points l).Sorted (· ≤ ·) :=
  List.sorted_mergeSort' l

theorem sorted_points_perm (l : List α) : List.Perm (sorted_points l) l :=
  List.mergeSort_perm l _

theorem sorted_points_length (l : List α) : (sorted_points l).length = l.length :=
  List.length_mergeSort l

theorem sorted_points_eq_self {l : List α} (h : l.Sorted (· ≤ ·)) : sorted_points l = l :=
  List.mergeSort_eq_self h

theorem list_min?_eq_some_iff {β : Type} [LinearOrder β] {xs : List β} {a : β} :
    xs.min? = some a ↔ a ∈ xs ∧ ∀ b ∈ xs, a ≤ b := by
  haveI : Std.Antisymm (fun x y : β => x ≤ y) := ⟨fun h h' => le_antisymm h h'⟩
  exact List.min?_eq_some_iff (fun a => le_refl a) (fun a b => min_choice a b)
    (fun a b c => le_min_iff)

theorem getElem_ne_of_lt_indexOf {β : Type} [DecidableEq β] {l : List β} {a : β} {j : ℕ}
    (hj : j < l.length) (h : j < l.indexOf a) : l[j] ≠ a := by
  have h' : j < l.findIdx (· == a) := h
  have := List.not_of_lt_findIdx h'
  simpa using this

theorem sorted_getD_mono {l : List α} (hs : l.Sorted (· ≤ ·)) {i j : ℕ}
    (hij : i ≤ j) (hj : j < l.length) : l.getD i 0 ≤ l.getD j 0 := by
  rw [List.getD_eq_getElem l 0 (lt_of_le_of_lt hij hj), List.getD_eq_getElem l 0 hj]
  rcases lt_or_eq_of_le hij with h | h
  · exact List.pairwise_iff_getElem.1 hs i j (lt_of_le_of_lt hij hj) hj h
  · subst h; exact le_refl _

theorem ci_width_length (l : List α) (cm : α) :
    (ci_width l cm).length = (n_ci l cm).toNat := by
  simp [ci_width]

theorem ci_width_getElem (l : List α) (cm : α) (i : ℕ) (h : i < (ci_width l cm).length) :
    (ci_width l cm)[i] = win_width l cm i := by
  simp [ci_width, win_width, win_hi, win_lo]

/-- When `hdi_from_mcmc` returns an interval, its width is the minimum of the
window-width list. -/
theorem hdi_width_eq_min {samples : List α} {cm : α} {lo hi : α}
    (h : hdi_from_mcmc samples cm = some (lo, hi)) :
    (ci_width samples cm).min? = some (hi - lo) := by
  cases hmin : (ci_width samples cm).min? with
  | none =>
    simp only [hdi_from_mcmc, hmin] at h
    exact Option.noConfusion h
  | some m =>
    simp only [hdi_from_mcmc, hmin, Option.some.injEq, Prod.mk.injEq] at h
    obtain ⟨hlo, hhi⟩ := h
    have hmem := (list_min?_eq_some_iff.1 hmin).1
    have hidx : (ci_width samples cm).indexOf m < (ci_width samples cm).length :=
      List.indexOf_lt_length.2 hmem
    have hWm : (ci_width samples cm)[(ci_width samples cm).indexOf m] = m :=
      List.getElem_indexOf hidx
    rw [ci_width_getElem samples cm _ hidx] at hWm
    rw [← hlo, ← hhi]
    unfold win_width win_hi win_lo at hWm
    rw [hWm]

/-- Concrete evaluation: on the already sorted sample 1..10 with credible mass
0.5 the code returns the pair `(sorted_points[0], sorted_points[0 + 5]) = (1, 6)`. -/
theorem hdi_ten_concrete :
    hdi_from_mcmc ([1, 2, 3, 4, 5, 6, 7, 8, 9, 10] : List ℚ) 0.5 = some (1, 6) := by
  have hs : sorted_points ([1, 2, 3, 4, 5, 6, 7, 8, 9, 10] : List ℚ)
      = [1, 2, 3, 4, 5, 6, 7, 8, 9, 10] := sorted_points_eq_self (by decide)
  simp only [hdi_from_mcmc, ci_width, n_ci, ci_idx_inc, hs]
  decide

/-- Concrete evaluation: sample `[1, 3, 4, 10]`, credible mass 1/4. -/
theorem hdi_fourth_concrete :
    hdi_from_mcmc ([1, 3, 4, 10] : List ℚ) (1/4) = some (3, 4) := by
  have hs : sorted_points ([1, 3, 4, 10] : List ℚ) = [1, 3, 4, 10] :=
    sorted_points_eq_self (by decide)
  simp only [hdi_from_mcmc, ci_width, n_ci, ci_idx_inc, hs]
  decide

/-- Concrete evaluation: sample `[1, 3, 4, 10]`, credible mass 1/2. -/
theorem hdi_half_concrete :
    hdi_from_mcmc ([1, 3, 4, 10] : List ℚ) (1/2) = some (1, 4) := by
  have hs : sorted_points ([1, 3, 4, 10] : List ℚ) = [1, 3, 4, 10] :=
    sorted_points_eq_self (by decide)
  simp only [hdi_from_mcmc, ci_width, n_ci, ci_idx_inc, hs]
  decide

/-- C1: for every sample and credible mass with `n_ci > 0`, `hdi_from_mcmc`
returns the window `(sorted_points[i*], sorted_points[i* + ci_idx_inc])` where
`sorted_points` is the ascending sort of the sample (a permutation of it) and
`i*` is the smallest index in `[0, n_ci)` minimising the window width
`w[i] = sorted_points[i + ci_idx_inc] - sorted_points[i]`: no other candidate
window covering the same count of sorted points is narrower, and ties are
broken towards the first (lowest) index. -/
theorem hdi_from_mcmc_shortest_window (samples : List α) (credible_mass : α)
    (hn : 0 < n_ci samples credible_mass) :
    (sorted_points samples).Sorted (· ≤ ·) ∧
    List.Perm (sorted_points samples) samples ∧
    ∃ istar : ℕ, istar < (n_ci samples credible_mass).toNat ∧
      hdi_from_mcmc samples credible_mass =
        some (win_lo samples credible_mass istar, win_hi samples credible_mass istar) ∧
      (∀ j, j < (n_ci samples credible_mass).toNat →
        win_width samples credible_mass istar ≤ win_width samples credible_mass j) ∧
      (∀ j, j < istar →
        win_width samples credible_mass istar < win_width samples credible_mass j) := by
  refine ⟨sorted_points_sorted samples, sorted_points_perm samples, ?_⟩
  have hWlen : (ci_width samples credible_mass).length = (n_ci samples credible_mass).toNat :=
    ci_width_length samples credible_mass
  have hWpos : 0 < (ci_width samples credible_mass).length := by
    rw [hWlen]; omega
  obtain ⟨m, hmin⟩ : ∃ m, (ci_width samples credible_mass).min? = some m := by
    cases hc : (ci_width samples credible_mass).min? with
    | none =>
      rw [List.min?_eq_none_iff] at hc
      rw [hc] at hWpos
      simp at hWpos
    | some m => exact ⟨m, rfl⟩
  have hprop := list_min?_eq_some_iff.1 hmin
  have hidx : (ci_width samples credible_mass).indexOf m
      < (ci_width samples credible_mass).length :=
    List.indexOf_lt_length.2 hprop.1
  have h1 : (ci_width samples credible_mass)[(ci_width samples credible_mass).indexOf m] = m :=
    List.getElem_indexOf hidx
  rw [ci_width_getElem _ _ _ hidx] at h1
  refine ⟨(ci_width samples credible_mass).indexOf m, by omega, ?_, ?_, ?_⟩
  · simp only [hdi_from_mcmc, hmin]
    rfl
  · intro j hj
    have hjW : j < (ci_width samples credible_mass).length := by omega
    have hmem : (ci_width samples credible_mass)[j] ∈ ci_width samples credible_mass :=
      List.getElem_mem hjW
    have hle := hprop.2 _ hmem
    rw [ci_width_getElem _ _ _ hjW] at hle
    rw [h1]; exact hle
  · intro j hj
    have hjW : j < (ci_width samples credible_mass).length := by omega
    have hne : (ci_width samples credible_mass)[j] ≠ m :=
      getElem_ne_of_lt_indexOf hjW hj
    have hmem : (ci_width samples credible_mass)[j] ∈ ci_width samples credible_mass :=
      List.getElem_mem hjW
    have hlt : m < (ci_width samples credible_mass)[j] :=
      lt_of_le_of_ne (hprop.2 _ hmem) (Ne.symm hne)
    rw [ci_width_getElem _ _ _ hjW] at hlt
    rw [h1]; exact hlt

/-- C1 (witness): the instantiation at the sample `[1, 3, 4, 10]` with
credible mass 1/2. -/
theorem hdi_from_mcmc_shortest_window_witness :
    0 < n_ci ([1, 3, 4, 10] : List ℚ) (1/2) ∧
      ((sorted_points ([1, 3, 4, 10] : List ℚ)).Sorted (· ≤ ·) ∧
       List.Perm (sorted_points ([1, 3, 4, 10] : List ℚ)) [1, 3, 4, 10] ∧
       ∃ istar : ℕ, istar < (n_ci ([1, 3, 4, 10] : List ℚ) (1/2)).toNat ∧
         hdi_from_mcmc ([1, 3, 4, 10] : List ℚ) (1/2) =
           some (win_lo ([1, 3, 4, 10] : List ℚ) (1/2) istar,
                 win_hi ([1, 3, 4, 10] : List ℚ) (1/2) istar) ∧
         (∀ j, j < (n_ci ([1, 3, 4, 10] : List ℚ) (1/2)).toNat →
           win_width ([1, 3, 4, 10] : List ℚ) (1/2) istar
             ≤ win_width ([1, 3, 4, 10] : List ℚ) (1/2) j) ∧
         (∀ j, j < istar →
           win_width ([1, 3, 4, 10] : List ℚ) (1/2) istar
             < win_width ([1, 3, 4, 10] : List ℚ) (1/2) j)) :=
  ⟨by decide, hdi_from_mcmc_shortest_window [1, 3, 4, 10] (1/2) (by decide)⟩

/-- C2: with the 3-element sample `[1, 2, 3]` and credible mass 0.99 we get
`ci_idx_inc = 3` and `n_ci = 0`, so the width list is empty and `hdi_from_mcmc`
does not return an interval: Python's `min` on the empty list raises an untyped
`ValueError` (modelled by `none`); the code has no `InvalidArgument` guard. -/
theorem hdi_from_mcmc_small_sample_raises :
    n_ci ([1, 2, 3] : List ℚ) 0.99 = 0 ∧
      hdi_from_mcmc ([1, 2, 3] : List ℚ) 0.99 = none := by
  constructor
  · simp only [n_ci, ci_idx_inc]
    decide
  · have hs : sorted_points ([1, 2, 3] : List ℚ) = [1, 2, 3] :=
      sorted_points_eq_self (by decide)
    simp only [hdi_from_mcmc, ci_width, n_ci, ci_idx_inc, hs]
    decide

/-- C3 (counterexample): `hdi_from_mcmc([1,...,10], credible_mass=0.5)` does not
return `(1, 5)`. -/
theorem hdi_ten_ne_one_five :
    hdi_from_mcmc ([1, 2, 3, 4, 5, 6, 7, 8, 9, 10] : List ℚ) 0.5 ≠ some (1, 5) := by
  rw [hdi_ten_concrete]
  decide

/-- C3 (amended): `hdi_from_mcmc([1,...,10], credible_mass=0.5)` returns
`(1, 6)`: `ci_idx_inc = 5`, all five window widths equal 5, the first minimal
index 0 is chosen, and the window is `(sorted_points[0], sorted_points[5])`,
spanning six sorted points. -/
theorem hdi_ten_eq_one_six :
    hdi_from_mcmc ([1, 2, 3, 4, 5, 6, 7, 8, 9, 10] : List ℚ) 0.5 = some (1, 6) :=
  hdi_ten_concrete

/-- C4: whenever the group's sample has fewer than 2 values, the per-group
interval computation in `cmplot` returns the undefined interval `(None, None)`
without calling any estimator and without an error, whatever the method. -/
theorem computeInterval_degenerate (sqrtFn : α → α) (src : ℕ → ℕ → α)
    (tppf : ℕ → α → α) (y_val : List α) (inf : InfBand) (conf_level : α)
    (hdi_iter : ℕ) (h : y_val.length < 2) :
    computeInterval sqrtFn src tppf y_val inf conf_level hdi_iter = some (none, none) := by
  unfold computeInterval
  rw [if_pos h]

/-- C4 (witness): the one-element sample `[3]` with the bayesian-hdi method. -/
theorem computeInterval_degenerate_witness :
    ([3] : List ℚ).length < 2 ∧
      computeInterval (fun q : ℚ => q) (fun _ _ => 0) (fun _ q => q) [3]
        InfBand.hdi 0.95 10000 = some (none, none) :=
  ⟨by decide, computeInterval_degenerate _ _ _ _ _ _ _ (by decide)⟩

/-- C5 (counterexample): the `iterations` parameter of `ttest_bayes_ci` does
not default to 10000; its source signature default is 1000. -/
theorem ttest_bayes_ci_iterations_default_ne :
    ttest_bayes_ci_iterations_default ≠ 10000 := by decide

/-- C5 (amended): `iterations` defaults to 1000 in `ttest_bayes_ci` itself,
while the `cmplot` wrapper parameter `hdi_iter` (always passed explicitly to
`ttest_bayes_ci` at the call site) defaults to 10000; the posterior sample set
`t_s` built by `ttest_bayes_ci` has exactly `iterations` entries. -/
theorem ttest_bayes_ci_iterations_default_eq :
    ttest_bayes_ci_iterations_default = 1000 ∧ cmplot_hdi_iter_default = 10000 ∧
      ∀ (sqrtFn : ℚ → ℚ) (src : ℕ → ℕ → ℚ) (x_val : List ℚ) (iterations : ℕ),
        (bayes_t_s sqrtFn src x_val iterations).length = iterations := by
  refine ⟨rfl, rfl, fun sqrtFn src x_val iterations => ?_⟩
  simp [bayes_t_s, t_rvs]

/-- C7: for a fixed sample, the width of the interval returned by
`hdi_from_mcmc` is monotonically non-decreasing in the credible mass: for
credible masses `a ≤ b` (with `0 ≤ a`, the credible-mass range) for which both
calls return an interval, the width at `b` is at least the width at `a`. -/
theorem hdi_width_monotone (samples : List α) (a b la ha' lb hb' : α)
    (h0 : 0 ≤ a) (hab : a ≤ b)
    (hA : hdi_from_mcmc samples a = some (la, ha'))
    (hB : hdi_from_mcmc samples b = some (lb, hb')) :
    ha' - la ≤ hb' - lb := by
  have hminA := hdi_width_eq_min hA
  have hminB := hdi_width_eq_min hB
  have hpropA := list_min?_eq_some_iff.1 hminA
  have hpropB := list_min?_eq_some_iff.1 hminB
  obtain ⟨i, hiB, hieq⟩ := List.mem_iff_getElem.1 hpropB.1
  have hk0 : 0 ≤ ci_idx_inc samples a :=
    Int.ceil_nonneg (mul_nonneg h0 (Nat.cast_nonneg _))
  have hkab : ci_idx_inc samples a ≤ ci_idx_inc samples b :=
    Int.ceil_mono (mul_le_mul_of_nonneg_right hab (Nat.cast_nonneg _))
  have hlenA := ci_width_length samples a
  have hlenB := ci_width_length samples b
  have hiB' := hiB
  rw [hlenB] at hiB'
  unfold n_ci at hiB'
  have hiA : i < (ci_width samples a).length := by
    rw [hlenA]
    unfold n_ci
    omega
  have h1 : ha' - la ≤ (ci_width samples a)[i] := hpropA.2 _ (List.getElem_mem hiA)
  have h2 : (ci_width samples a)[i] ≤ (ci_width samples b)[i] := by
    rw [ci_width_getElem _ _ _ hiA, ci_width_getElem _ _ _ hiB]
    unfold win_width win_hi win_lo
    have hmono : (sorted_points samples).getD (i + (ci_idx_inc samples a).toNat) 0
        ≤ (sorted_points samples).getD (i + (ci_idx_inc samples b).toNat) 0 := by
      apply sorted_getD_mono (sorted_points_sorted samples)
      · omega
      · rw [sorted_points_length]
        omega
    linarith
  rw [hieq] at h2
  linarith

/-- C7 (witness): sample `[1, 3, 4, 10]`, masses 1/4 and 1/2: widths 1 and 3. -/
theorem hdi_width_monotone_witness :
    (0:ℚ) ≤ 1/4 ∧ (1/4:ℚ) ≤ 1/2 ∧
      hdi_from_mcmc ([1, 3, 4, 10] : List ℚ) (1/4) = some (3, 4) ∧
      hdi_from_mcmc ([1, 3, 4, 10] : List ℚ) (1/2) = some (1, 4) ∧
      (4 - 3 : ℚ) ≤ 4 - 1 :=
  ⟨by norm_num, by norm_num, hdi_fourth_concrete, hdi_half_concrete,
    hdi_width_monotone [1, 3, 4, 10] (1/4) (1/2) 3 4 1 4 (by norm_num) (by norm_num)
      hdi_fourth_concrete hdi_half_concrete⟩

/-- C8: the per-group dispatch with the interquartile-range method on the
sample 1..10 returns the pair of 25th and 75th percentiles `(3.25, 7.75)`
under numpy's linear-interpolation quantile convention. -/
theorem computeInterval_iqr_concrete (sqrtFn : ℚ → ℚ) (src : ℕ → ℕ → ℚ)
    (tppf : ℕ → ℚ → ℚ) (conf_level : ℚ) (hdi_iter : ℕ) :
    computeInterval sqrtFn src tppf ([1, 2, 3, 4, 5, 6, 7, 8, 9, 10] : List ℚ)
      InfBand.iqr conf_level hdi_iter = some (some 3.25, some 7.75) := by
  have h1 : np_quantile ([1, 2, 3, 4, 5, 6, 7, 8, 9, 10] : List ℚ) 0.25 = 3.25 := by
    unfold np_quantile
    rw [List.mergeSort_eq_self (by decide)]
    decide
  have h2 : np_quantile ([1, 2, 3, 4, 5, 6, 7, 8, 9, 10] : List ℚ) 0.75 = 7.75 := by
    unfold np_quantile
    rw [List.mergeSort_eq_self (by decide)]
    decide
  unfold computeInterval
  rw [if_neg (by decide)]
  change some (some (np_quantile ([1, 2, 3, 4, 5, 6, 7, 8, 9, 10] : List ℚ) 0.25),
               some (np_quantile ([1, 2, 3, 4, 5, 6, 7, 8, 9, 10] : List ℚ) 0.75)) = _
  rw [h1, h2]

/-- C6: both `ttest_bayes_ci` and `t_test_ci` compute the standard error as
the population standard deviation (divisor n, not n-1) of the sample divided
by sqrt n: numpy's `np.std` (default ddof=0) coincides with the specification's
population convention; the Bayesian posterior draws (Student-t at dof = n-1)
are scaled by that standard error and shifted by the mean; the t-interval is
built at dof = n-1, centred at the arithmetic mean with that scale (its
midpoint is the mean whenever the t quantile function is odd-symmetric); and on
the sample `[0, 2]` the population convention gives 1, where the n-1 divisor
convention would give sqrt 2. -/
theorem std_err_population_convention :
    (∀ x_val : List ℝ, np_std Real.sqrt x_val = population_std x_val) ∧
    (∀ (src : ℕ → ℕ → ℝ) (x_val : List ℝ) (iterations : ℕ) (credible_mass : ℝ),
      ttest_bayes_ci Real.sqrt src x_val iterations credible_mass =
        hdi_from_mcmc
          ((t_rvs src (x_val.length - 1) iterations).map
            (fun d => population_std x_val / Real.sqrt (x_val.length : ℝ) * d
              + np_mean x_val))
          credible_mass) ∧
    (∀ (tppf : ℕ → ℝ → ℝ) (x_val : List ℝ) (conf_level : ℝ),
      t_test_ci Real.sqrt tppf x_val conf_level =
        (np_mean x_val + population_std x_val / Real.sqrt (x_val.length : ℝ)
            * tppf (x_val.length - 1) ((1 - conf_level) / 2),
         np_mean x_val + population_std x_val / Real.sqrt (x_val.length : ℝ)
            * tppf (x_val.length - 1) ((1 + conf_level) / 2))) ∧
    (∀ (tppf : ℕ → ℝ → ℝ) (x_val : List ℝ) (conf_level : ℝ),
      tppf (x_val.length - 1) ((1 - conf_level) / 2)
          = -(tppf (x_val.length - 1) ((1 + conf_level) / 2)) →
        ((t_test_ci Real.sqrt tppf x_val conf_level).1
          + (t_test_ci Real.sqrt tppf x_val conf_level).2) / 2 = np_mean x_val) ∧
    np_std Real.sqrt [0, 2] = 1 := by
  refine ⟨fun x_val => rfl, fun src x_val iterations credible_mass => rfl,
    fun tppf x_val conf_level => rfl, ?_, ?_⟩
  · intro tppf x_val conf_level hsym
    simp only [t_test_ci, t_interval]
    rw [hsym]
    ring
  · unfold np_std np_mean
    norm_num

/-- C6 (witness): on the sample `[0, 2]` with an odd-symmetric quantile stand-in
`fun df q => 2 * q - 1` and confidence level 1/2. -/
theorem std_err_population_convention_witness :
    np_std Real.sqrt [0, 2] = 1 ∧
      ((fun (_ : ℕ) (q : ℝ) => 2 * q - 1) (([0, 2] : List ℝ).length - 1) ((1 - 1/2) / 2)
        = -((fun (_ : ℕ) (q : ℝ) => 2 * q - 1) (([0, 2] : List ℝ).length - 1) ((1 + 1/2) / 2))) ∧
      ((t_test_ci Real.sqrt (fun _ q => 2 * q - 1) [0, 2] (1/2)).1
        + (t_test_ci Real.sqrt (fun _ q => 2 * q - 1) [0, 2] (1/2)).2) / 2
        = np_mean ([0, 2] : List ℝ) :=
  ⟨std_err_population_convention.2.2.2.2, by norm_num,
   std_err_population_convention.2.2.2.1 (fun _ q => 2 * q - 1) [0, 2] (1/2) (by norm_num)⟩

/-- Replicated constant lists are sorted. -/
theorem sorted_replicate (n : ℕ) (m : α) : (List.replicate n m).Sorted (· ≤ ·) := by
  induction n with
  | zero => exact List.Pairwise.nil
  | succ k ih =>
    rw [List.replicate_succ]
    exact List.Pairwise.cons
      (fun b hb => le_of_eq (List.eq_of_mem_replicate hb).symm) ih

/-- On a constant sample of n copies of m, whenever the window fits
(`ci_idx_inc < n`, with a nonnegative credible mass), `hdi_from_mcmc` returns
the degenerate interval `(m, m)`. -/
theorem hdi_from_mcmc_replicate (n : ℕ) (m : α) (cm : α)
    (hcm : 0 ≤ cm) (hfit : ⌈cm * (n : α)⌉ < (n : ℤ)) :
    hdi_from_mcmc (List.replicate n m) cm = some (m, m) := by
  have hk0 : 0 ≤ ci_idx_inc (List.replicate n m) cm := by
    unfold ci_idx_inc
    rw [List.length_replicate]
    exact Int.ceil_nonneg (mul_nonneg hcm (Nat.cast_nonneg _))
  have hklt : ci_idx_inc (List.replicate n m) cm < (n : ℤ) := by
    unfold ci_idx_inc
    rw [List.length_replicate]
    exact hfit
  have hs : sorted_points (List.replicate n m) = List.replicate n m :=
    sorted_points_eq_self (sorted_replicate n m)
  have hnci : n_ci (List.replicate n m) cm = (n : ℤ) - ci_idx_inc (List.replicate n m) cm := by
    unfold n_ci
    rw [List.length_replicate]
  have hzero : ∀ w ∈ ci_width (List.replicate n m) cm, w = 0 := by
    intro w hw
    unfold ci_width at hw
    obtain ⟨i, hi, hweq⟩ := List.mem_map.1 hw
    rw [List.mem_range, hnci] at hi
    rw [hs] at hweq
    have hi1 : i < (List.replicate n m).length := by
      rw [List.length_replicate]; omega
    have hi2 : i + (ci_idx_inc (List.replicate n m) cm).toNat
        < (List.replicate n m).length := by
      rw [List.length_replicate]; omega
    rw [List.getD_eq_getElem _ _ hi1, List.getD_eq_getElem _ _ hi2,
      List.getElem_replicate, List.getElem_replicate, sub_self] at hweq
    exact hweq.symm
  have hWrep : ci_width (List.replicate n m) cm
      = List.replicate ((n_ci (List.replicate n m) cm).toNat) (0 : α) := by
    have h := List.eq_replicate_of_mem hzero
    rwa [ci_width_length] at h
  have hpos : 0 < (n_ci (List.replicate n m) cm).toNat := by
    rw [hnci]; omega
  have hmin : (ci_width (List.replicate n m) cm).min? = some 0 := by
    rw [hWrep]
    exact List.min?_replicate_of_pos (min_self 0) hpos
  have hidx : (ci_width (List.replicate n m) cm).indexOf (0 : α) = 0 := by
    rw [hWrep]
    cases h : (n_ci (List.replicate n m) cm).toNat with
    | zero => omega
    | succ k => rw [List.replicate_succ, List.indexOf_cons_self]
  simp only [hdi_from_mcmc, hmin, hidx, hs]
  have h0n : (0 : ℕ) < (List.replicate n m).length := by
    rw [List.length_replicate]; omega
  have hkn : 0 + (ci_idx_inc (List.replicate n m) cm).toNat
      < (List.replicate n m).length := by
    rw [List.length_replicate]; omega
  rw [List.getD_eq_getElem _ _ h0n, List.getD_eq_getElem _ _ hkn,
    List.getElem_replicate, List.getElem_replicate]

/-- C10: on a sample of n >= 2 copies of a value m, `ttest_bayes_ci` returns
the degenerate interval `(m, m)` for every outcome of the injected random
draws (whenever the call returns at all, i.e. the credible window fits in the
`iterations` posterior points): the standard error is `sqrt 0 = 0`, so every
posterior sample equals m. -/
theorem ttest_bayes_ci_constant_sample (m : ℝ) (x_val : List ℝ) (src : ℕ → ℕ → ℝ)
    (iterations : ℕ) (credible_mass : ℝ)
    (hlen : 2 ≤ x_val.length) (hconst : ∀ v ∈ x_val, v = m)
    (hcm : 0 ≤ credible_mass)
    (hfit : ⌈credible_mass * (iterations : ℝ)⌉ < (iterations : ℤ)) :
    ttest_bayes_ci Real.sqrt src x_val iterations credible_mass = some (m, m) := by
  have hn0 : (x_val.length : ℝ) ≠ 0 := Nat.cast_ne_zero.2 (by omega)
  have hmean : np_mean x_val = m := by
    unfold np_mean
    rw [List.sum_eq_card_nsmul x_val m hconst, nsmul_eq_mul]
    exact mul_div_cancel_left₀ m hn0
  have hstd : np_std Real.sqrt x_val = 0 := by
    unfold np_std
    have hsum : (x_val.map (fun v => (v - np_mean x_val) ^ 2)).sum = 0 := by
      apply List.sum_eq_zero
      intro y hy
      obtain ⟨v, hv, rfl⟩ := List.mem_map.1 hy
      rw [hconst v hv, hmean]
      ring
    rw [hsum, zero_div, Real.sqrt_zero]
  have hts : bayes_t_s Real.sqrt src x_val iterations = List.replicate iterations m := by
    unfold bayes_t_s
    rw [hstd, hmean]
    simp only [zero_div, zero_mul, zero_add]
    rw [List.map_const', t_rvs, List.length_map, List.length_range]
  unfold ttest_bayes_ci
  rw [hts]
  exact hdi_from_mcmc_replicate iterations m credible_mass hcm hfit

/-- C10 (witness): the constant sample `[5, 5]` with draws `3` and `-7`,
2 iterations and credible mass 1/2. -/
theorem ttest_bayes_ci_constant_sample_witness :
    2 ≤ ([5, 5] : List ℝ).length ∧ (∀ v ∈ ([5, 5] : List ℝ), v = 5) ∧
      (0 : ℝ) ≤ 1/2 ∧ ⌈(1/2 : ℝ) * ((2 : ℕ) : ℝ)⌉ < ((2 : ℕ) : ℤ) ∧
      ttest_bayes_ci Real.sqrt (fun _ j => if j = 0 then 3 else -7) [5, 5] 2 (1/2)
        = some (5, 5) := by
  have hceil : ⌈(1/2 : ℝ) * ((2 : ℕ) : ℝ)⌉ < ((2 : ℕ) : ℤ) := by
    rw [show (1/2 : ℝ) * ((2 : ℕ) : ℝ) = 1 by norm_num]
    rw [Int.ceil_one]
    norm_num
  exact ⟨by norm_num, by simp, by norm_num, hceil,
    ttest_bayes_ci_constant_sample 5 [5, 5] (fun _ j => if j = 0 then 3 else -7) 2 (1/2)
      (by norm_num) (by simp) (by norm_num) hceil⟩

/-- C9: none of the three estimators mutates the caller's sample: in the
state-passing embedding (which models Python's `sorted` builtin as allocating a
new list, and `np.mean`, `np.std`, `t.rvs` as pure reads) each function returns
the caller's sequence with exactly the elements it held before the call, in the
same order. -/
theorem estimators_preserve_input (x_val : List α) (credible_mass conf_level : α)
    (sqrtFn : α → α) (src : ℕ → ℕ → α) (tppf : ℕ → α → α) (iterations : ℕ) :
    (hdi_from_mcmc_frame x_val credible_mass).2 = x_val ∧
      (ttest_bayes_ci_frame sqrtFn src x_val iterations credible_mass).2 = x_val ∧
      (t_test_ci_frame sqrtFn tppf x_val conf_level).2 = x_val :=
  ⟨rfl, rfl, rfl⟩

end Cmplot
